import Mathlib

set_option maxRecDepth 100000

/-!
Verification of the StockScreener screening and technical-analysis engine.

The definitions below are a shallow embedding of the Python sources:
`src/common/technical_indicators.py`, `src/common/database.py`,
`src/screener_enhanced.py`, `src/screener_phase1.py` and `src/backtest.py`.
Python floats are modelled as exact rationals; the one real-valued
computation (the EMA weight kernel, which uses the exponential function)
is modelled over the reals.  Python `None` becomes `Option.none`.

Python float truthiness matters in two places and is modelled explicitly:
`if not x` is true both for `None` and for `0.0`, so a moving average of
exactly zero, or a stored price of exactly zero, is treated by the code
as missing data.
-/

namespace StockScreener

/-- Mean of a list of rationals, as computed by `np.mean`: sum divided by
length (division by zero yields 0, a case never reached by the guarded
callers). -/
def listMean (l : List ℚ) : ℚ := l.sum / (l.length : ℚ)

/-- The last `k` elements of a list, i.e. the Python slice `l[-k:]` for
`1 ≤ k ≤ l.length` (the embedding is used only with `k ≥ 1`; Python's
`l[-0:]` quirk is outside every call site, whose periods are 14/20/30/50/200). -/
def lastN (l : List ℚ) (k : ℕ) : List ℚ := l.drop (l.length - k)

/-- Successive differences of a price list, `np.diff(prices)`
(`technical_indicators.py` line 25). -/
def deltas (prices : List ℚ) : List ℚ :=
  List.zipWith (fun a b => b - a) prices prices.tail

/-- `np.where(deltas > 0, deltas, 0)` (`technical_indicators.py` line 28). -/
def gains (prices : List ℚ) : List ℚ :=
  (deltas prices).map (fun d => if 0 < d then d else 0)

/-- `np.where(deltas < 0, -deltas, 0)` (`technical_indicators.py` line 29). -/
def losses (prices : List ℚ) : List ℚ :=
  (deltas prices).map (fun d => if d < 0 then -d else 0)

/-- `avg_gain = np.mean(gains[-period:])` (`technical_indicators.py` line 32). -/
def avg_gain (prices : List ℚ) (period : ℕ) : ℚ :=
  listMean (lastN (gains prices) period)

/-- `avg_loss = np.mean(losses[-period:])` (`technical_indicators.py` line 33). -/
def avg_loss (prices : List ℚ) (period : ℕ) : ℚ :=
  listMean (lastN (losses prices) period)

/-- `calculate_rsi` from `technical_indicators.py` lines 10-41. -/
def calculate_rsi (prices : List ℚ) (period : ℕ) : Option ℚ :=
  if prices.length < period + 1 then none
  else if avg_loss prices period = 0 then some 100
  else some (100 - 100 / (1 + avg_gain prices period / avg_loss prices period))

/-- `calculate_sma` from `technical_indicators.py` lines 44-58. -/
def calculate_sma (prices : List ℚ) (period : ℕ) : Option ℚ :=
  if prices.length < period then none
  else some (listMean (lastN prices period))

section Rsi

lemma gains_nonneg (prices : List ℚ) : ∀ x ∈ gains prices, 0 ≤ x := by
  intro x hx
  rcases List.mem_map.mp hx with ⟨d, _, rfl⟩
  by_cases h : 0 < d
  · simpa [h] using le_of_lt h
  · simp [h]

lemma losses_nonneg (prices : List ℚ) : ∀ x ∈ losses prices, 0 ≤ x := by
  intro x hx
  rcases List.mem_map.mp hx with ⟨d, _, rfl⟩
  by_cases h : d < 0
  · simp only [losses, if_pos h]
    linarith
  · simp [h]

lemma listMean_nonneg {l : List ℚ} (h : ∀ x ∈ l, 0 ≤ x) : 0 ≤ listMean l := by
  have hs : 0 ≤ l.sum := List.sum_nonneg h
  have hl : (0 : ℚ) ≤ (l.length : ℚ) := by positivity
  exact div_nonneg hs hl

lemma avg_gain_nonneg (prices : List ℚ) (period : ℕ) : 0 ≤ avg_gain prices period := by
  refine listMean_nonneg ?_
  intro x hx
  exact gains_nonneg prices x (List.mem_of_mem_drop hx)

lemma avg_loss_nonneg (prices : List ℚ) (period : ℕ) : 0 ≤ avg_loss prices period := by
  refine listMean_nonneg ?_
  intro x hx
  exact losses_nonneg prices x (List.mem_of_mem_drop hx)

end Rsi

/-- C1: with at least `period+1` prices the RSI is defined and lies in
[0, 100]; it equals exactly 100 when the mean loss over the last `period`
deltas is 0; with fewer than `period+1` prices it is unavailable (`none`).
(Stated for `period ≥ 1`; every call site uses `period = 14`.) -/
theorem rsi_spec (prices : List ℚ) (period : ℕ) (hp : 1 ≤ period) :
    (prices.length < period + 1 → calculate_rsi prices period = none) ∧
    (period + 1 ≤ prices.length →
      ∃ r, calculate_rsi prices period = some r ∧ 0 ≤ r ∧ r ≤ 100 ∧
        (avg_loss prices period = 0 → r = 100)) := by
  constructor
  · intro h
    simp [calculate_rsi, h]
  · intro h
    have hlen : ¬ prices.length < period + 1 := not_lt.mpr h
    by_cases hz : avg_loss prices period = 0
    · refine ⟨100, ?_, by norm_num, by norm_num, fun _ => rfl⟩
      simp [calculate_rsi, hlen, hz]
    · have hg : 0 ≤ avg_gain prices period := avg_gain_nonneg prices period
      have hl : 0 < avg_loss prices period :=
        lt_of_le_of_ne (avg_loss_nonneg prices period) (Ne.symm hz)
      have hrs : 0 ≤ avg_gain prices period / avg_loss prices period :=
        div_nonneg hg (le_of_lt hl)
      refine ⟨100 - 100 / (1 + avg_gain prices period / avg_loss prices period),
        ?_, ?_, ?_, fun h0 => absurd h0 hz⟩
      · simp [calculate_rsi, hlen, hz]
      · have hle : 100 / (1 + avg_gain prices period / avg_loss prices period) ≤ 100 :=
          div_le_self (by norm_num) (by linarith)
        linarith
      · have hpos : 0 < 100 / (1 + avg_gain prices period / avg_loss prices period) :=
          div_pos (by norm_num) (by linarith)
        linarith

/-- Witness for `rsi_spec` at a concrete 15-point alternating series with
`period = 14`: the RSI is defined and in bounds. -/
theorem rsi_spec_w :
    ∃ r, calculate_rsi [1, 2, 1, 2, 1, 2, 1, 2, 1, 2, 1, 2, 1, 2, 1] 14 = some r ∧
      0 ≤ r ∧ r ≤ 100 ∧
      (avg_loss [1, 2, 1, 2, 1, 2, 1, 2, 1, 2, 1, 2, 1, 2, 1] 14 = 0 → r = 100) :=
  (rsi_spec [1, 2, 1, 2, 1, 2, 1, 2, 1, 2, 1, 2, 1, 2, 1] 14 (by norm_num)).2 (by decide)

/-- The last `k` elements of a real-valued list (the EMA works on reals
because its weight kernel uses the exponential function). -/
def lastNR (l : List ℝ) (k : ℕ) : List ℝ := l.drop (l.length - k)

/-- `np.linspace(-1., 0., period)`: `period` evenly spaced points from -1
to 0 (for `period = 1` the single point -1, matching numpy; the Lean
convention `x / 0 = 0` reproduces that case). -/
noncomputable def emaLinspace (period : ℕ) : List ℝ :=
  (List.range period).map (fun i => -1 + (i : ℝ) / ((period : ℝ) - 1))

/-- `calculate_ema` from `technical_indicators.py` lines 61-80: exponential
weights over the window, normalized to sum 1, convolved with the prices;
the last element of the valid convolution pairs the trailing `period`
prices with the reversed weight list. -/
noncomputable def calculate_ema (prices : List ℝ) (period : ℕ) : Option ℝ :=
  if prices.length < period then none
  else
    let w := (emaLinspace period).map Real.exp
    let weights := w.map (fun x => x / w.sum)
    some (List.sum (List.zipWith (fun p q => p * q) (lastNR prices period) weights.reverse))

/-- C8: `calculate_sma` and `calculate_ema` are unavailable (`none`) on a
price list shorter than `period`; on a list of length at least `period`,
`calculate_sma` is exactly the arithmetic mean of the last `period` values
(the list splits as `pre ++ suf` with `|suf| = period` and the SMA equal to
`suf.sum / period`).  (Stated for `period ≥ 1`; call sites use
14/20/30/50/200.) -/
theorem sma_ema_spec (prices : List ℚ) (rprices : List ℝ) (period : ℕ)
    (hp : 1 ≤ period) :
    (prices.length < period → calculate_sma prices period = none) ∧
    (rprices.length < period → calculate_ema rprices period = none) ∧
    (period ≤ prices.length →
      ∃ pre suf, prices = pre ++ suf ∧ suf.length = period ∧
        calculate_sma prices period = some (suf.sum / (period : ℚ))) := by
  refine ⟨fun h => by simp [calculate_sma, h], fun h => by simp [calculate_ema, h], ?_⟩
  intro h
  refine ⟨prices.take (prices.length - period), prices.drop (prices.length - period),
    (List.take_append_drop _ prices).symm, ?_, ?_⟩
  · simp [List.length_drop]
    omega
  · have hlen : ¬ prices.length < period := not_lt.mpr h
    have hd : (prices.drop (prices.length - period)).length = period := by
      simp [List.length_drop]
      omega
    simp only [calculate_sma, if_neg hlen, listMean, lastN, hd]

/-- Witness for `sma_ema_spec`: on `[1, 2, 3]` with `period = 2` the SMA is
the mean of the last two values, and on a short list both indicators are
unavailable. -/
theorem sma_ema_spec_w :
    (calculate_sma [1, 2, 3] 4 = none ∧ calculate_ema [1] 4 = none) ∧
    (∃ pre suf, ([1, 2, 3] : List ℚ) = pre ++ suf ∧ suf.length = 2 ∧
      calculate_sma [1, 2, 3] 2 = some (suf.sum / (2 : ℚ))) :=
  ⟨⟨(sma_ema_spec [1, 2, 3] [1] 4 (by norm_num)).1 (by norm_num),
    (sma_ema_spec [1, 2, 3] [1] 4 (by norm_num)).2.1 (by norm_num)⟩,
   (sma_ema_spec [1, 2, 3] [1] 2 (by norm_num)).2.2 (by norm_num)⟩

/-- Index list of the retrospective crossover scan,
`range(1, min(lookback_days + 1, len(prices) - 200))`
(`technical_indicators.py` lines 126 and 161). -/
def crossLoopIdx (n lookback_days : ℕ) : List ℕ :=
  List.range' 1 (min (lookback_days + 1) (n - 200) - 1)

/-- One iteration of the golden-cross scan (`technical_indicators.py`
lines 127-131): the SMAs of `prices[:-i]`; a past window counts only when
both SMAs are truthy (present and nonzero — Python `and` on floats) and the
50-day SMA was at or below the 200-day SMA. -/
def goldenPastHit (prices : List ℚ) (i : ℕ) : Bool :=
  match calculate_sma (prices.take (prices.length - i)) 50,
        calculate_sma (prices.take (prices.length - i)) 200 with
  | some a, some b => decide (a ≠ 0) && decide (b ≠ 0) && decide (a ≤ b)
  | _, _ => false

/-- One iteration of the death-cross scan (`technical_indicators.py`
lines 162-166): as `goldenPastHit` but the past 50-day SMA must be at or
above the past 200-day SMA. -/
def deathPastHit (prices : List ℚ) (i : ℕ) : Bool :=
  match calculate_sma (prices.take (prices.length - i)) 50,
        calculate_sma (prices.take (prices.length - i)) 200 with
  | some a, some b => decide (a ≠ 0) && decide (b ≠ 0) && decide (b ≤ a)
  | _, _ => false

/-- `detect_golden_cross` from `technical_indicators.py` lines 100-133.
The `a = 0 ∨ b = 0` branch models `if not ma_50_current or not
ma_200_current` on floats that are present but zero. -/
def detect_golden_cross (prices : List ℚ) (lookback_days : ℕ) :
    Bool × Option ℚ × Option ℚ :=
  if prices.length < 200 then (false, none, none)
  else
    match calculate_sma prices 50, calculate_sma prices 200 with
    | some a, some b =>
      if a = 0 ∨ b = 0 then (false, some a, some b)
      else if a ≤ b then (false, some a, some b)
      else if (crossLoopIdx prices.length lookback_days).any (goldenPastHit prices)
        then (true, some a, some b)
        else (false, some a, some b)
    | ma50, ma200 => (false, ma50, ma200)

/-- `detect_death_cross` from `technical_indicators.py` lines 136-168. -/
def detect_death_cross (prices : List ℚ) (lookback_days : ℕ) :
    Bool × Option ℚ × Option ℚ :=
  if prices.length < 200 then (false, none, none)
  else
    match calculate_sma prices 50, calculate_sma prices 200 with
    | some a, some b =>
      if a = 0 ∨ b = 0 then (false, some a, some b)
      else if b ≤ a then (false, some a, some b)
      else if (crossLoopIdx prices.length lookback_days).any (deathPastHit prices)
        then (true, some a, some b)
        else (false, some a, some b)
    | ma50, ma200 => (false, ma50, ma200)

section Cross

lemma golden_fst_true {prices : List ℚ} {lookback_days : ℕ}
    (h : (detect_golden_cross prices lookback_days).1 = true) :
    ∃ a b, calculate_sma prices 50 = some a ∧ calculate_sma prices 200 = some b ∧
      b < a ∧
      (crossLoopIdx prices.length lookback_days).any (goldenPastHit prices) = true := by
  unfold detect_golden_cross at h
  by_cases hn : prices.length < 200
  · rw [if_pos hn] at h
    simp at h
  · rw [if_neg hn] at h
    rcases h50 : calculate_sma prices 50 with _ | a <;> rw [h50] at h
    · simp at h
    · rcases h200 : calculate_sma prices 200 with _ | b <;> rw [h200] at h
      · simp at h
      · dsimp only at h
        split_ifs at h with h1 h2 h3
        exact ⟨a, b, rfl, rfl, lt_of_not_le h2, h3⟩

lemma death_fst_true {prices : List ℚ} {lookback_days : ℕ}
    (h : (detect_death_cross prices lookback_days).1 = true) :
    ∃ a b, calculate_sma prices 50 = some a ∧ calculate_sma prices 200 = some b ∧
      a < b ∧
      (crossLoopIdx prices.length lookback_days).any (deathPastHit prices) = true := by
  unfold detect_death_cross at h
  by_cases hn : prices.length < 200
  · rw [if_pos hn] at h
    simp at h
  · rw [if_neg hn] at h
    rcases h50 : calculate_sma prices 50 with _ | a <;> rw [h50] at h
    · simp at h
    · rcases h200 : calculate_sma prices 200 with _ | b <;> rw [h200] at h
      · simp at h
      · dsimp only at h
        split_ifs at h with h1 h2 h3
        exact ⟨a, b, rfl, rfl, lt_of_not_le h2, h3⟩

end Cross

/-- C3: golden-cross and death-cross detection are mutually exclusive on the
same price series and lookback: they never both report `detected = true`. -/
theorem cross_mutually_exclusive (prices : List ℚ) (lookback_days : ℕ) :
    ((detect_golden_cross prices lookback_days).1 &&
      (detect_death_cross prices lookback_days).1) = false := by
  by_cases hg : (detect_golden_cross prices lookback_days).1 = true
  · by_cases hd : (detect_death_cross prices lookback_days).1 = true
    · exfalso
      rcases golden_fst_true hg with ⟨a, b, ha, hbb, hlt, _⟩
      rcases death_fst_true hd with ⟨a', b', ha', hb', hlt', _⟩
      rw [ha] at ha'
      rw [hbb] at hb'
      have e1 : a = a' := by injection ha'
      have e2 : b = b' := by injection hb'
      rw [← e1, ← e2] at hlt'
      exact absurd hlt (not_lt.mpr (le_of_lt hlt'))
    · have hf : (detect_death_cross prices lookback_days).1 = false := by
        simpa using hd
      rw [hf, Bool.and_false]
  · have hf : (detect_golden_cross prices lookback_days).1 = false := by
      simpa using hg
    rw [hf, Bool.false_and]

/-- C10: the retrospective scan is truncated by the series length: on a
series of exactly 200 points the scan index list is empty, so neither cross
is ever detected regardless of the prices; in general at most
`n - 200` prior windows are scanned, hence fewer than `lookback_days`
windows whenever `n < 200 + lookback_days + 1`. -/
theorem cross_lookback_truncation (prices : List ℚ) (lookback_days : ℕ) :
    (prices.length = 200 →
      (detect_golden_cross prices lookback_days).1 = false ∧
      (detect_death_cross prices lookback_days).1 = false) ∧
    (crossLoopIdx prices.length lookback_days).length ≤ prices.length - 200 ∧
    (1 ≤ lookback_days → prices.length < 200 + lookback_days + 1 →
      (crossLoopIdx prices.length lookback_days).length < lookback_days) := by
  have hloop : ∀ n lb, (crossLoopIdx n lb).length = min (lb + 1) (n - 200) - 1 := by
    intro n lb
    simp [crossLoopIdx]
  refine ⟨?_, ?_, ?_⟩
  · intro h200
    have hnil : crossLoopIdx prices.length lookback_days = [] := by
      rw [h200]
      simp [crossLoopIdx]
    constructor
    · rcases Bool.eq_false_or_eq_true (detect_golden_cross prices lookback_days).1 with ht | hf
      · exfalso
        rcases golden_fst_true ht with ⟨a, b, _, _, _, hany⟩
        rw [hnil] at hany
        simp at hany
      · exact hf
    · rcases Bool.eq_false_or_eq_true (detect_death_cross prices lookback_days).1 with ht | hf
      · exfalso
        rcases death_fst_true ht with ⟨a, b, _, _, _, hany⟩
        rw [hnil] at hany
        simp at hany
      · exact hf
  · rw [hloop]
    omega
  · intro hlb hshort
    rw [hloop]
    omega

/-- Witness for `cross_lookback_truncation` on a flat 200-point series with
the default lookback of 5: no cross is detected and fewer than 5 windows
are scanned. -/
theorem cross_lookback_truncation_w :
    ((detect_golden_cross (List.replicate 200 (1 : ℚ)) 5).1 = false ∧
      (detect_death_cross (List.replicate 200 (1 : ℚ)) 5).1 = false) ∧
    (crossLoopIdx (List.replicate 200 (1 : ℚ)).length 5).length < 5 :=
  ⟨(cross_lookback_truncation (List.replicate 200 1) 5).1 (by simp),
   (cross_lookback_truncation (List.replicate 200 1) 5).2.2 (by norm_num) (by simp)⟩

/-- Evaluation helper: the SMA of `front ++ window` over a `window` of
exactly the period length is the mean of `window`. -/
lemma calculate_sma_append (front window : List ℚ) (k : ℕ)
    (hw : window.length = k) (hk : 1 ≤ k) :
    calculate_sma (front ++ window) k = some (window.sum / (k : ℚ)) := by
  have hlen : (front ++ window).length = front.length + k := by simp [hw]
  have hnl : ¬ (front ++ window).length < k := by
    rw [hlen]
    omega
  have hdrop : lastN (front ++ window) k = window := by
    have he : (front ++ window).length - k = front.length := by
      rw [hlen]
      omega
    rw [lastN, he, List.drop_left]
  rw [calculate_sma, if_neg hnl, hdrop, listMean, hw]

/-- Evaluation helper: the SMA of a constant series is that constant. -/
lemma calculate_sma_replicate (m k : ℕ) (a : ℚ) (hk : 1 ≤ k) (h : k ≤ m) :
    calculate_sma (List.replicate m a) k = some a := by
  have e : List.replicate m a = List.replicate (m - k) a ++ List.replicate k a := by
    rw [← List.replicate_add]
    congr 1
    omega
  rw [e, calculate_sma_append _ _ k (by simp) hk]
  have hk0 : (k : ℚ) ≠ 0 := Nat.cast_ne_zero.mpr (by omega)
  congr 1
  rw [List.sum_replicate, nsmul_eq_mul, mul_comm, mul_div_assoc, div_self hk0, mul_one]

/-- A 260-point series refuting the unconditional form of end-to-end
scenario 3: 259 days at 0 followed by one day at 10.  The current 50-day
SMA (1/5) exceeds the current 200-day SMA (1/20), and three days ago the
50-day SMA (0) was at or below the 200-day SMA (0) — yet every window the
scan examines has a 50-day SMA of exactly 0, which Python float truthiness
treats as missing data, so no cross is reported. -/
def cePrices : List ℚ := List.replicate 259 0 ++ [10]

lemma cePrices_length : cePrices.length = 260 := by
  simp [cePrices]

lemma cePrices_take (n : ℕ) (hn : n ≤ 259) :
    cePrices.take n = List.replicate n (0 : ℚ) := by
  rw [cePrices, List.take_append_eq_append_take, List.take_replicate]
  have h1 : n ⊓ 259 = n := by omega
  have h2 : n - (List.replicate 259 (0 : ℚ)).length = 0 := by
    simp
    omega
  rw [h1, h2]
  simp

lemma cePrices_sma_50 : calculate_sma cePrices 50 = some (1 / 5) := by
  have e : cePrices = List.replicate 210 (0 : ℚ) ++ (List.replicate 49 0 ++ [10]) := by
    rw [cePrices, ← List.append_assoc, ← List.replicate_add]
  rw [e, calculate_sma_append _ _ 50 (by simp) (by norm_num)]
  norm_num [List.sum_append, List.sum_replicate]

lemma cePrices_sma_200 : calculate_sma cePrices 200 = some (1 / 20) := by
  have e : cePrices = List.replicate 60 (0 : ℚ) ++ (List.replicate 199 0 ++ [10]) := by
    rw [cePrices, ← List.append_assoc, ← List.replicate_add]
  rw [e, calculate_sma_append _ _ 200 (by simp) (by norm_num)]
  norm_num [List.sum_append, List.sum_replicate]

lemma cePrices_hit_false (i : ℕ) (h1 : 1 ≤ i) (h5 : i ≤ 5) :
    goldenPastHit cePrices i = false := by
  unfold goldenPastHit
  rw [cePrices_length, cePrices_take (260 - i) (by omega),
    calculate_sma_replicate (260 - i) 50 0 (by norm_num) (by omega),
    calculate_sma_replicate (260 - i) 200 0 (by norm_num) (by omega)]
  simp

/-- C7 counterexample: a 260-point series whose current 50-day SMA exceeds
its 200-day SMA while the series truncated by 3 trailing points had its
50-day SMA at or below its 200-day SMA, on which `detect_golden_cross`
with `lookback_days = 5` nevertheless reports `detected = false`. -/
theorem golden_scenario_ce :
    cePrices.length = 260 ∧
    calculate_sma cePrices 50 = some (1 / 5) ∧
    calculate_sma cePrices 200 = some (1 / 20) ∧
    ((1 : ℚ) / 20 < 1 / 5) ∧
    calculate_sma (cePrices.take 257) 50 = some 0 ∧
    calculate_sma (cePrices.take 257) 200 = some 0 ∧
    ((0 : ℚ) ≤ 0) ∧
    (detect_golden_cross cePrices 5).1 = false := by
  have ht257 : cePrices.take 257 = List.replicate 257 (0 : ℚ) :=
    cePrices_take 257 (by norm_num)
  have hfst : (detect_golden_cross cePrices 5).1 = false := by
    rcases Bool.eq_false_or_eq_true (detect_golden_cross cePrices 5).1 with htr | hf
    · exfalso
      rcases golden_fst_true htr with ⟨a, b, _, _, _, hany⟩
      rw [cePrices_length] at hany
      have hidx : crossLoopIdx 260 5 = [1, 2, 3, 4, 5] := by decide
      rw [hidx] at hany
      rcases List.any_eq_true.mp hany with ⟨i, hmem, hit⟩
      have hi : goldenPastHit cePrices i = false := by
        have : i = 1 ∨ i = 2 ∨ i = 3 ∨ i = 4 ∨ i = 5 := by simpa using hmem
        rcases this with rfl | rfl | rfl | rfl | rfl <;>
          exact cePrices_hit_false _ (by norm_num) (by norm_num)
      rw [hi] at hit
      exact Bool.false_ne_true hit
    · exact hf
  refine ⟨cePrices_length, cePrices_sma_50, cePrices_sma_200, by norm_num, ?_, ?_,
    le_refl 0, hfst⟩
  · rw [ht257]
    exact calculate_sma_replicate 257 50 0 (by norm_num) (by norm_num)
  · rw [ht257]
    exact calculate_sma_replicate 257 200 0 (by norm_num) (by norm_num)

/-- C7 amended: on a 260-point series whose current 50-day SMA `a` exceeds
the current 200-day SMA `b`, and whose 3-day-truncated 50-day SMA `c` was
at or below the truncated 200-day SMA `d`, with all four SMAs nonzero
(Python float truthiness treats a zero SMA as missing data),
`detect_golden_cross` with `lookback_days = 5` reports `detected = true`
together with the current SMA values. -/
theorem golden_scenario_amended (prices : List ℚ) (a b c d : ℚ)
    (hlen : prices.length = 260)
    (h50 : calculate_sma prices 50 = some a)
    (h200 : calculate_sma prices 200 = some b)
    (hab : b < a) (ha0 : a ≠ 0) (hb0 : b ≠ 0)
    (h50p : calculate_sma (prices.take 257) 50 = some c)
    (h200p : calculate_sma (prices.take 257) 200 = some d)
    (hcd : c ≤ d) (hc0 : c ≠ 0) (hd0 : d ≠ 0) :
    detect_golden_cross prices 5 = (true, some a, some b) := by
  have hn : ¬ prices.length < 200 := by
    rw [hlen]
    norm_num
  have hhit : goldenPastHit prices 3 = true := by
    unfold goldenPastHit
    rw [hlen]
    norm_num
    rw [h50p, h200p]
    simp [hc0, hd0, hcd]
  have hmem : (3 : ℕ) ∈ crossLoopIdx prices.length 5 := by
    rw [hlen]
    simp [crossLoopIdx]
  have hany : (crossLoopIdx prices.length 5).any (goldenPastHit prices) = true :=
    List.any_eq_true.mpr ⟨3, hmem, hhit⟩
  unfold detect_golden_cross
  rw [if_neg hn, h50, h200]
  dsimp only
  rw [if_neg (not_or.mpr ⟨ha0, hb0⟩), if_neg (not_le.mpr hab), if_pos hany]

/-- The series witnessing the amended scenario: 257 days at 1 followed by
3 days at 2. -/
def wPrices : List ℚ := List.replicate 257 1 ++ List.replicate 3 2

lemma wPrices_sma_50 : calculate_sma wPrices 50 = some (53 / 50) := by
  have e : wPrices = List.replicate 210 (1 : ℚ) ++ (List.replicate 47 1 ++ List.replicate 3 2) := by
    rw [wPrices, ← List.append_assoc, ← List.replicate_add]
  rw [e, calculate_sma_append _ _ 50 (by simp) (by norm_num)]
  norm_num [List.sum_append, List.sum_replicate]

lemma wPrices_sma_200 : calculate_sma wPrices 200 = some (203 / 200) := by
  have e : wPrices = List.replicate 60 (1 : ℚ) ++ (List.replicate 197 1 ++ List.replicate 3 2) := by
    rw [wPrices, ← List.append_assoc, ← List.replicate_add]
  rw [e, calculate_sma_append _ _ 200 (by simp) (by norm_num)]
  norm_num [List.sum_append, List.sum_replicate]

lemma wPrices_take : wPrices.take 257 = List.replicate 257 (1 : ℚ) := by
  rw [wPrices, List.take_append_eq_append_take, List.take_replicate]
  norm_num

/-- Witness for `golden_scenario_amended`: 257 days at 1 followed by 3 days
at 2 triggers the golden-cross detection. -/
theorem golden_scenario_amended_w :
    detect_golden_cross wPrices 5 = (true, some (53 / 50), some (203 / 200)) := by
  have h50p : calculate_sma (wPrices.take 257) 50 = some 1 := by
    rw [wPrices_take]
    exact calculate_sma_replicate 257 50 1 (by norm_num) (by norm_num)
  have h200p : calculate_sma (wPrices.take 257) 200 = some 1 := by
    rw [wPrices_take]
    exact calculate_sma_replicate 257 200 1 (by norm_num) (by norm_num)
  exact golden_scenario_amended wPrices (53 / 50) (203 / 200) 1 1
    (by simp [wPrices]) wPrices_sma_50 wPrices_sma_200
    (by norm_num) (by norm_num) (by norm_num)
    h50p h200p (le_refl 1) (by norm_num) (by norm_num)

/-- Dividend-yield normalization, the step `if y > 1: y = y / 100` applied
before use in `screener_enhanced.py` lines 64-66, `screener_phase1.py`
lines 91-93 and 179-181, and `backtest.py` lines 72-73. -/
def normalize_yield (y : ℚ) : ℚ := if 1 < y then y / 100 else y

/-- C4: normalization leaves a value in [0, 1] unchanged (hence it is
idempotent on correctly-scaled input) and divides a value above 1 by
exactly 100, once. -/
theorem yield_normalization (y : ℚ) :
    (0 ≤ y → y ≤ 1 → normalize_yield y = y) ∧
    (1 < y → normalize_yield y = y / 100) ∧
    (0 ≤ y → y ≤ 1 → normalize_yield (normalize_yield y) = normalize_yield y) := by
  refine ⟨fun h0 h1 => ?_, fun h => ?_, fun h0 h1 => ?_⟩
  · rw [normalize_yield, if_neg (not_lt.mpr h1)]
  · rw [normalize_yield, if_pos h]
  · have hy : normalize_yield y = y := by rw [normalize_yield, if_neg (not_lt.mpr h1)]
    rw [hy]
    exact hy

/-- Witness for `yield_normalization` at 1/2 (already a fraction) and 7/2
(a percentage-scaled value). -/
theorem yield_normalization_w :
    normalize_yield (1 / 2) = 1 / 2 ∧
    normalize_yield (7 / 2) = 7 / 2 / 100 ∧
    normalize_yield (normalize_yield (1 / 2)) = normalize_yield (1 / 2) :=
  ⟨(yield_normalization (1 / 2)).1 (by norm_num) (by norm_num),
   (yield_normalization (7 / 2)).2.1 (by norm_num),
   (yield_normalization (1 / 2)).2.2 (by norm_num) (by norm_num)⟩

/-- A row of the `alerts` table (`database.py` lines 116-129), reduced to
the columns the deduplication logic reads; dates are modelled as day
numbers. -/
structure AlertRecord where
  ticker : String
  strategy : String
  alert_date : ℕ
deriving DecidableEq

/-- `StockDatabase.get_recent_alerts` (`database.py` lines 262-270): every
alert for the ticker dated within the last `days` days, regardless of
strategy. -/
def get_recent_alerts (alerts : List AlertRecord) (today : ℕ) (t : String)
    (days : ℕ) : List AlertRecord :=
  alerts.filter (fun a => a.ticker == t && decide (today - days ≤ a.alert_date))

/-- The duplicate-suppression decision of the enhanced screeners
(`screener_enhanced.py` lines 110-112 for dividend, 184-187 for
volatility): suppress iff ANY recent alert for the ticker exists. -/
def suppressed_enhanced (alerts : List AlertRecord) (today : ℕ) (t : String)
    (days : ℕ) : Bool :=
  !(get_recent_alerts alerts today t days).isEmpty

/-- The duplicate-suppression decision of the phase-1 screeners
(`screener_phase1.py` lines 87-89 for 52-week-low, 188-190 for
golden-cross): suppress iff a recent alert for the ticker with the SAME
strategy exists. -/
def suppressed_phase1 (alerts : List AlertRecord) (today : ℕ) (t : String)
    (days : ℕ) (strat : String) : Bool :=
  (get_recent_alerts alerts today t days).any (fun a => a.strategy == strat)

/-- C2 counterexample: in the dividend screener a recent alert for the same
ticker under the DIFFERENT strategy "volatility" suppresses the
opportunity, contradicting the claim that only a same-(ticker, strategy)
alert suppresses. -/
theorem dedup_cross_strategy_ce :
    suppressed_enhanced [⟨"A", "volatility", 10⟩] 10 "A" 7 = true ∧
    (∀ a ∈ [(⟨"A", "volatility", 10⟩ : AlertRecord)], a.strategy ≠ "dividend") := by
  constructor
  · rfl
  · intro a ha
    rw [List.mem_singleton] at ha
    subst ha
    intro hc
    exact absurd hc (by decide)

/-- C2 amended: the phase-1 screeners (52-week-low, golden-cross) suppress
an opportunity iff an alert with the same ticker AND the same strategy lies
within the window, whereas the enhanced screeners (dividend, volatility)
suppress iff ANY alert for the ticker lies within the window, regardless of
strategy. -/
theorem dedup_characterization (alerts : List AlertRecord) (today : ℕ)
    (t : String) (days : ℕ) (strat : String) :
    (suppressed_phase1 alerts today t days strat = true ↔
      ∃ a ∈ alerts, a.ticker = t ∧ a.strategy = strat ∧
        today - days ≤ a.alert_date) ∧
    (suppressed_enhanced alerts today t days = true ↔
      ∃ a ∈ alerts, a.ticker = t ∧ today - days ≤ a.alert_date) := by
  constructor
  · rw [suppressed_phase1, List.any_eq_true]
    constructor
    · rintro ⟨a, hmem, hs⟩
      rw [get_recent_alerts, List.mem_filter] at hmem
      rcases hmem with ⟨hmem, hcond⟩
      simp only [Bool.and_eq_true, beq_iff_eq, decide_eq_true_eq] at hcond hs
      exact ⟨a, hmem, hcond.1, hs, hcond.2⟩
    · rintro ⟨a, hmem, h1, h2, h3⟩
      refine ⟨a, ?_, by simp [h2]⟩
      rw [get_recent_alerts, List.mem_filter]
      exact ⟨hmem, by simp [h1, h3]⟩
  · rw [suppressed_enhanced]
    constructor
    · intro h
      have hne : get_recent_alerts alerts today t days ≠ [] := by
        intro he
        rw [he] at h
        simp at h
      rcases List.exists_mem_of_ne_nil _ hne with ⟨a, ha⟩
      rw [get_recent_alerts, List.mem_filter] at ha
      rcases ha with ⟨hmem, hcond⟩
      simp only [Bool.and_eq_true, beq_iff_eq, decide_eq_true_eq] at hcond
      exact ⟨a, hmem, hcond.1, hcond.2⟩
    · rintro ⟨a, hmem, h1, h2⟩
      have hmf : a ∈ get_recent_alerts alerts today t days := by
        rw [get_recent_alerts, List.mem_filter]
        exact ⟨hmem, by simp [h1, h2]⟩
      have hne : get_recent_alerts alerts today t days ≠ [] :=
        List.ne_nil_of_mem hmf
      simp [List.isEmpty_iff, hne]

/-- Witness for `dedup_characterization`: a same-strategy alert inside the
window does suppress in the phase-1 screener. -/
theorem dedup_characterization_w :
    suppressed_phase1 [⟨"A", "dividend", 5⟩] 6 "A" 7 "dividend" = true :=
  ((dedup_characterization [⟨"A", "dividend", 5⟩] 6 "A" 7 "dividend").1).mpr
    ⟨⟨"A", "dividend", 5⟩, by simp, rfl, rfl, by norm_num⟩

/-- The median computed by `run_backtest` (`backtest.py` lines 310 and
338): `sorted(returns)[len(returns) // 2]`, the element at index `n / 2`
(0-based) of the ascending sort.  The sort is modelled by `insertionSort`;
the out-of-range default 0 of `getD` is never reached because the code only
computes the median of a nonempty result list. -/
def median_return (returns : List ℚ) : ℚ :=
  (List.insertionSort (· ≤ ·) returns).getD (returns.length / 2) 0

/-- C6 counterexample: for the even-length return list [0, 10] the reported
median is 10, the UPPER-middle element — neither the lower-middle element 0
nor the interpolated value 5. -/
theorem median_upper_middle_ce :
    median_return [0, 10] = 10 ∧ (10 : ℚ) ≠ 0 ∧ (10 : ℚ) ≠ 5 := by
  refine ⟨?_, by norm_num, by norm_num⟩
  decide

/-- C6 amended: for every nonempty return list the reported median is the
element at 0-based index `n / 2` of the ascending sort — the middle element
for odd `n` (as the claim states) but the UPPER-middle element for even
`n`, not the lower-middle element nor the interpolation.  The sorted list
is characterised abstractly: any sorted permutation `s` of the returns
works. -/
theorem median_is_upper_middle (rs s : List ℚ) (hperm : s.Perm rs)
    (hsort : s.Sorted (· ≤ ·)) :
    median_return rs = s.getD (rs.length / 2) 0 := by
  have h1 : (List.insertionSort (· ≤ ·) rs).Sorted (· ≤ ·) :=
    List.sorted_insertionSort _ rs
  have h2 : (List.insertionSort (· ≤ ·) rs).Perm rs :=
    List.perm_insertionSort _ rs
  have he : s = List.insertionSort (· ≤ ·) rs :=
    List.eq_of_perm_of_sorted (hperm.trans h2.symm) hsort h1
  rw [median_return, ← he]

/-- Witness for `median_is_upper_middle`: the four-element list [4, 1, 3, 2]
has median 3, the upper-middle element of its sort [1, 2, 3, 4]. -/
theorem median_is_upper_middle_w : median_return [4, 1, 3, 2] = 3 := by
  have h := median_is_upper_middle [4, 1, 3, 2] [1, 2, 3, 4] (by decide)
    (by decide)
  rw [h]
  decide

/-- A dividend opportunity record, reduced to the sort key used at
`screener_enhanced.py` line 139. -/
structure DividendOpp where
  ticker : String
  yield_expansion_pp : ℚ

/-- A volatility opportunity record, reduced to the sort key used at
`screener_enhanced.py` line 210. -/
structure VolatilityOpp where
  ticker : String
  drop_from_high : ℚ

/-- A 52-week-low opportunity record, reduced to the sort key used at
`screener_phase1.py` line 120. -/
structure LowOpp where
  ticker : String
  distance_from_low_pct : ℚ

/-- `opportunities.sort(key=lambda x: x[yield_expansion_pp], reverse=True)`
(`screener_enhanced.py` line 139): stable sort by descending
yield-expansion, applied to the collected list just before the screener
returns it. -/
def sort_dividend_opps (l : List DividendOpp) : List DividendOpp :=
  List.insertionSort (fun a b => b.yield_expansion_pp ≤ a.yield_expansion_pp) l

/-- `opportunities.sort(key=lambda x: x[drop_from_high])`
(`screener_enhanced.py` line 210): ascending drop-from-high, most negative
first. -/
def sort_volatility_opps (l : List VolatilityOpp) : List VolatilityOpp :=
  List.insertionSort (fun a b => a.drop_from_high ≤ b.drop_from_high) l

/-- `opportunities.sort(key=lambda x: x[distance_from_low_pct])`
(`screener_phase1.py` line 120): ascending distance-from-low. -/
def sort_low_opps (l : List LowOpp) : List LowOpp :=
  List.insertionSort (fun a b => a.distance_from_low_pct ≤ b.distance_from_low_pct) l

/-- C9: the opportunity lists returned by the screeners are permutations of
the collected opportunities in strategy-specific order: dividend by
descending yield-expansion, volatility by ascending drop-from-high,
52-week-low by ascending distance-from-low. -/
theorem screener_sort_orders (ld : List DividendOpp) (lv : List VolatilityOpp)
    (ll : List LowOpp) :
    ((sort_dividend_opps ld).Sorted
        (fun a b => b.yield_expansion_pp ≤ a.yield_expansion_pp) ∧
      (sort_dividend_opps ld).Perm ld) ∧
    ((sort_volatility_opps lv).Sorted
        (fun a b => a.drop_from_high ≤ b.drop_from_high) ∧
      (sort_volatility_opps lv).Perm lv) ∧
    ((sort_low_opps ll).Sorted
        (fun a b => a.distance_from_low_pct ≤ b.distance_from_low_pct) ∧
      (sort_low_opps ll).Perm ll) := by
  haveI i1 : IsTotal DividendOpp
      (fun a b => b.yield_expansion_pp ≤ a.yield_expansion_pp) :=
    ⟨fun a b => le_total _ _⟩
  haveI i2 : IsTrans DividendOpp
      (fun a b => b.yield_expansion_pp ≤ a.yield_expansion_pp) :=
    ⟨fun _ _ _ h1 h2 => le_trans h2 h1⟩
  haveI i3 : IsTotal VolatilityOpp
      (fun a b => a.drop_from_high ≤ b.drop_from_high) :=
    ⟨fun a b => le_total _ _⟩
  haveI i4 : IsTrans VolatilityOpp
      (fun a b => a.drop_from_high ≤ b.drop_from_high) :=
    ⟨fun _ _ _ h1 h2 => le_trans h1 h2⟩
  haveI i5 : IsTotal LowOpp
      (fun a b => a.distance_from_low_pct ≤ b.distance_from_low_pct) :=
    ⟨fun a b => le_total _ _⟩
  haveI i6 : IsTrans LowOpp
      (fun a b => a.distance_from_low_pct ≤ b.distance_from_low_pct) :=
    ⟨fun _ _ _ h1 h2 => le_trans h1 h2⟩
  exact ⟨⟨List.sorted_insertionSort _ ld, List.perm_insertionSort _ ld⟩,
    ⟨List.sorted_insertionSort _ lv, List.perm_insertionSort _ lv⟩,
    ⟨List.sorted_insertionSort _ ll, List.perm_insertionSort _ ll⟩⟩

/-- A row of the `stock_data` table as read by the backtest
(`backtest.py` lines 181-188), reduced to the columns the return
computation touches; dates are day numbers and a NULL price is `none`. -/
structure PriceRow where
  ticker : String
  date : ℕ
  price_eur : Option ℚ
deriving DecidableEq

/-- An opportunity as consumed by `calculate_returns`, reduced to the two
fields it reads (`backtest.py` lines 176-178). -/
structure Opportunity where
  ticker : String
  entry_price : ℚ
deriving DecidableEq

/-- A backtest trade: the opportunity enriched with exit data
(`backtest.py` lines 198-203). -/
structure BacktestTrade where
  ticker : String
  entry_price : ℚ
  exit_date : ℕ
  exit_price : ℚ
  return_pct : ℚ
deriving DecidableEq

/-- The SQL lookup `SELECT price_eur FROM stock_data WHERE ticker = ? AND
date <= ? ORDER BY date DESC LIMIT 1` (`backtest.py` lines 181-188): the
row with the greatest date among the ticker's rows at or before the exit
date (unique because of the `UNIQUE(ticker, date)` schema constraint). -/
def latestPriceRow (tbl : List PriceRow) (t : String) (d : ℕ) : Option PriceRow :=
  (tbl.filter (fun r => r.ticker == t && decide (r.date ≤ d))).argmax
    (fun r => r.date)

/-- The price carried by that row, `none` when no row exists or the stored
price is NULL. -/
def lookupExitPrice (tbl : List PriceRow) (t : String) (d : ℕ) : Option ℚ :=
  (latestPriceRow tbl t d).bind (fun r => r.price_eur)

/-- The per-opportunity body of `calculate_returns` (`backtest.py` lines
176-203): skip when the lookup returns no row or a falsy price (`if not
result or not result[0]: continue` — NULL and 0.0 are both falsy),
otherwise build the trade with
`return_pct = (exit_price - entry_price) / entry_price * 100`. -/
def tradeFor (tbl : List PriceRow) (exit_date : ℕ) (opp : Opportunity) :
    Option BacktestTrade :=
  match lookupExitPrice tbl opp.ticker exit_date with
  | none => none
  | some p =>
    if p = 0 then none
    else some ⟨opp.ticker, opp.entry_price, exit_date, p,
      (p - opp.entry_price) / opp.entry_price * 100⟩

/-- `calculate_returns` from `backtest.py` lines 171-205. -/
def calculate_returns (tbl : List PriceRow) (opps : List Opportunity)
    (exit_date : ℕ) : List BacktestTrade :=
  opps.filterMap (tradeFor tbl exit_date)

lemma tradeFor_eq_some (tbl : List PriceRow) (e : ℕ) (opp : Opportunity)
    (tr : BacktestTrade) :
    tradeFor tbl e opp = some tr ↔
      ∃ p, lookupExitPrice tbl opp.ticker e = some p ∧ p ≠ 0 ∧
        tr = ⟨opp.ticker, opp.entry_price, e, p,
          (p - opp.entry_price) / opp.entry_price * 100⟩ := by
  unfold tradeFor
  rcases h : lookupExitPrice tbl opp.ticker e with _ | p
  · simp [h]
  · dsimp only
    by_cases hp : p = 0
    · subst hp
      simp
    · rw [if_neg hp]
      constructor
      · intro hh
        exact ⟨p, rfl, hp, (Option.some_injective _ hh).symm⟩
      · rintro ⟨q, hq, hq0, rfl⟩
        have hpq : p = q := Option.some_injective _ hq
        subst hpq
        rfl

/-- C5 counterexample: ticker "A" has a price row (price 0) at or before
the exit date, so "a price at or before the exit date exists", yet the
trade is omitted because Python float truthiness treats the 0.0 price as
missing (`if not result[0]: continue`). -/
theorem returns_zero_price_ce :
    lookupExitPrice [⟨"A", 1, some 0⟩] "A" 2 = some 0 ∧
    calculate_returns [⟨"A", 1, some 0⟩] [⟨"A", 10⟩] 2 = [] := by
  constructor
  · rfl
  · rfl

/-- C5 amended: `calculate_returns` includes a trade for an opportunity iff
the latest-dated price row for its ticker at or before the exit date exists
and carries a present, nonzero price; that trade's `return_pct` is exactly
`(exit_price - entry_price) / entry_price * 100` with the exit price taken
from that latest row; every other opportunity is omitted from the result
entirely (never reported with zero return).  The second conjunct pins down
"latest": the row found is a table row for the ticker dated at or before
the exit date, and no qualifying row is dated later. -/
theorem calculate_returns_spec (tbl : List PriceRow) (opps : List Opportunity)
    (exit_date : ℕ) :
    (∀ tr, tr ∈ calculate_returns tbl opps exit_date ↔
      ∃ opp ∈ opps, ∃ p, lookupExitPrice tbl opp.ticker exit_date = some p ∧
        p ≠ 0 ∧
        tr = ⟨opp.ticker, opp.entry_price, exit_date, p,
          (p - opp.entry_price) / opp.entry_price * 100⟩) ∧
    (∀ t r, latestPriceRow tbl t exit_date = some r →
      r ∈ tbl ∧ r.ticker = t ∧ r.date ≤ exit_date ∧
      ∀ q ∈ tbl, q.ticker = t → q.date ≤ exit_date → q.date ≤ r.date) := by
  constructor
  · intro tr
    rw [calculate_returns, List.mem_filterMap]
    constructor
    · rintro ⟨opp, hmem, heq⟩
      rcases (tradeFor_eq_some tbl exit_date opp tr).mp heq with ⟨p, h1, h2, h3⟩
      exact ⟨opp, hmem, p, h1, h2, h3⟩
    · rintro ⟨opp, hmem, p, h1, h2, h3⟩
      exact ⟨opp, hmem, (tradeFor_eq_some tbl exit_date opp tr).mpr ⟨p, h1, h2, h3⟩⟩
  · intro t r h
    have hopt : r ∈ (tbl.filter
        (fun q => q.ticker == t && decide (q.date ≤ exit_date))).argmax
        (fun q => q.date) := Option.mem_def.mpr h
    have hmem := List.argmax_mem hopt
    rw [List.mem_filter] at hmem
    rcases hmem with ⟨hmem, hcond⟩
    simp only [Bool.and_eq_true, beq_iff_eq, decide_eq_true_eq] at hcond
    refine ⟨hmem, hcond.1, hcond.2, ?_⟩
    intro q hq hqt hqd
    have hqf : q ∈ tbl.filter
        (fun x => x.ticker == t && decide (x.date ≤ exit_date)) :=
      List.mem_filter.mpr ⟨hq, by simp [hqt, hqd]⟩
    exact List.le_of_mem_argmax hqf hopt

/-- Witness for `calculate_returns_spec`: with a single price row (price
20, date 1) a trade for the opportunity (entry 10) is included with a 100%
return. -/
theorem calculate_returns_spec_w :
    (⟨"A", 10, 2, 20, ((20 : ℚ) - 10) / 10 * 100⟩ : BacktestTrade) ∈
      calculate_returns [⟨"A", 1, some 20⟩] [⟨"A", 10⟩] 2 :=
  ((calculate_returns_spec [⟨"A", 1, some 20⟩] [⟨"A", 10⟩] 2).1 _).mpr
    ⟨⟨"A", 10⟩, by simp, 20, rfl, by norm_num, rfl⟩

end StockScreener
